import Mathlib

/-!
Shallow embedding of `src/middleware/validateTwilio.js` (class
`TwilioSignatureValidator`): canonical-string construction, HMAC-SHA1,
base64 encoding, Node's forgiving base64 decoding (`Buffer.from(s, 'base64')`
never throws: it also accepts the RFC 4648 section 5 URL-safe alphabet,
characters outside the accepted alphabet are skipped and decoding stops at
the first `=`; a trailing partial group of 2 or 3 characters still
emits 1 or 2 bytes, with the unused low bits discarded), Node's
`crypto.timingSafeEqual` (throws when the buffer lengths differ), the
`validateSignature` method with its try/catch, and the Express middleware's
control flow (missing-header check, `Array.prototype.some` over the auth
tokens, 403 responses, `next()`).

Bytes are `Nat` values below 256; 32-bit words are `Nat` reduced modulo 2^32.
-/

/-- UTF-8 encoding of one Unicode code point (Node `Buffer.from(s, 'utf-8')`). -/
def utf8EncodeChar (c : Char) : List Nat :=
  let n := c.toNat
  if n < 0x80 then [n]
  else if n < 0x800 then [0xC0 ||| (n >>> 6), 0x80 ||| (n &&& 0x3F)]
  else if n < 0x10000 then
    [0xE0 ||| (n >>> 12), 0x80 ||| ((n >>> 6) &&& 0x3F), 0x80 ||| (n &&& 0x3F)]
  else
    [0xF0 ||| (n >>> 18), 0x80 ||| ((n >>> 12) &&& 0x3F),
     0x80 ||| ((n >>> 6) &&& 0x3F), 0x80 ||| (n &&& 0x3F)]

/-- UTF-8 bytes of a string. -/
def utf8Bytes (s : String) : List Nat :=
  (s.data.map utf8EncodeChar).flatten

/-- Left-rotate a 32-bit word by `n` bits. -/
def rotl32 (n x : Nat) : Nat :=
  ((x <<< n) % 4294967296) ||| ((x % 4294967296) >>> (32 - n))

/-- Big-endian 4-byte encoding of a 32-bit word. -/
def be4 (w : Nat) : List Nat :=
  [(w >>> 24) &&& 0xFF, (w >>> 16) &&& 0xFF, (w >>> 8) &&& 0xFF, w &&& 0xFF]

/-- Big-endian 8-byte encoding of a 64-bit length field. -/
def be8 (w : Nat) : List Nat :=
  [(w >>> 56) &&& 0xFF, (w >>> 48) &&& 0xFF, (w >>> 40) &&& 0xFF,
   (w >>> 32) &&& 0xFF, (w >>> 24) &&& 0xFF, (w >>> 16) &&& 0xFF,
   (w >>> 8) &&& 0xFF, w &&& 0xFF]

/-- Group a byte list into big-endian 32-bit words (4 bytes each). -/
def toWordsBE : List Nat → List Nat
  | b0 :: b1 :: b2 :: b3 :: rest =>
      ((b0 <<< 24) ||| (b1 <<< 16) ||| (b2 <<< 8) ||| b3) :: toWordsBE rest
  | _ => []

/-- SHA-1 padding: append `0x80`, zeros to 56 mod 64, then the bit length. -/
def sha1Pad (msg : List Nat) : List Nat :=
  msg ++ [0x80] ++ List.replicate ((119 - msg.length % 64) % 64) 0
      ++ be8 (msg.length * 8)

/-- Split a byte list into 64-byte blocks; the fuel argument (an upper bound
on the number of blocks, here the list length) makes the recursion
structural. -/
def chunks64Go : Nat → List Nat → List (List Nat)
  | 0, _ => []
  | _, [] => []
  | fuel + 1, b :: rest =>
      ((b :: rest).take 64) :: chunks64Go fuel ((b :: rest).drop 64)

/-- Split a byte list into 64-byte blocks. -/
def chunks64 (l : List Nat) : List (List Nat) := chunks64Go l.length l

/-- Extend 16 message-schedule words to 80 (SHA-1 schedule). -/
def extendW (w16 : List Nat) : List Nat :=
  (List.range 64).foldl (fun acc i =>
    acc ++ [rotl32 1 (((acc.getD (i + 13) 0) ^^^ (acc.getD (i + 8) 0)) ^^^
                      ((acc.getD (i + 2) 0) ^^^ (acc.getD i 0)))]) w16

/-- One SHA-1 round: state `(a, b, c, d, e)`, round index `i`, word `w`. -/
def sha1Round (st : Nat × Nat × Nat × Nat × Nat) (i w : Nat) :
    Nat × Nat × Nat × Nat × Nat :=
  let a := st.1
  let b := st.2.1
  let c := st.2.2.1
  let d := st.2.2.2.1
  let e := st.2.2.2.2
  let f :=
    if i < 20 then (b &&& c) ||| ((b ^^^ 0xFFFFFFFF) &&& d)
    else if i < 40 then (b ^^^ c) ^^^ d
    else if i < 60 then ((b &&& c) ||| (b &&& d)) ||| (c &&& d)
    else (b ^^^ c) ^^^ d
  let k :=
    if i < 20 then 0x5A827999
    else if i < 40 then 0x6ED9EBA1
    else if i < 60 then 0x8F1BBCDC
    else 0xCA62C1D6
  ((rotl32 5 a + f + e + k + w) % 4294967296, a, rotl32 30 b, c, d)

/-- SHA-1 compression of one 64-byte block into the 5-word state. -/
def sha1Compress (h : List Nat) (block : List Nat) : List Nat :=
  let w := extendW (toWordsBE block)
  let init : Nat × Nat × Nat × Nat × Nat :=
    (h.getD 0 0, h.getD 1 0, h.getD 2 0, h.getD 3 0, h.getD 4 0)
  let st := (List.range 80).foldl (fun s i => sha1Round s i (w.getD i 0)) init
  [(h.getD 0 0 + st.1) % 4294967296,
   (h.getD 1 0 + st.2.1) % 4294967296,
   (h.getD 2 0 + st.2.2.1) % 4294967296,
   (h.getD 3 0 + st.2.2.2.1) % 4294967296,
   (h.getD 4 0 + st.2.2.2.2) % 4294967296]

/-- SHA-1 digest (20 bytes) of a byte list. -/
def sha1 (msg : List Nat) : List Nat :=
  (((chunks64 (sha1Pad msg)).foldl sha1Compress
      [0x67452301, 0xEFCDAB89, 0x98BADCFE, 0x10325476, 0xC3D2E1F0]).map be4).flatten

/-- HMAC-SHA1 (`crypto.createHmac('sha1', key)`): 20-byte digest. -/
def hmacSha1 (key msg : List Nat) : List Nat :=
  let k0 := if 64 < key.length then sha1 key else key
  let kp := k0 ++ List.replicate (64 - k0.length) 0
  sha1 ((kp.map (fun b => b ^^^ 0x5C)) ++
        sha1 ((kp.map (fun b => b ^^^ 0x36)) ++ msg))

/-- The base64 alphabet as a character list. -/
def b64Alphabet : List Char :=
  "ABCDEFGHIJKLMNOPQRSTUVWXYZabcdefghijklmnopqrstuvwxyz0123456789+/".data

/-- Character for a 6-bit value. -/
def b64Char (n : Nat) : Char := b64Alphabet.getD n 'A'

/-- Standard base64 encoding with padding, as a character list. -/
def base64EncodeChars : List Nat → List Char
  | [] => []
  | [b0] => [b64Char (b0 >>> 2), b64Char ((b0 &&& 0x3) <<< 4), '=', '=']
  | [b0, b1] =>
      [b64Char (b0 >>> 2), b64Char (((b0 &&& 0x3) <<< 4) ||| (b1 >>> 4)),
       b64Char ((b1 &&& 0xF) <<< 2), '=']
  | b0 :: b1 :: b2 :: rest =>
      b64Char (b0 >>> 2) :: b64Char (((b0 &&& 0x3) <<< 4) ||| (b1 >>> 4)) ::
      b64Char (((b1 &&& 0xF) <<< 2) ||| (b2 >>> 6)) :: b64Char (b2 &&& 0x3F) ::
      base64EncodeChars rest

/-- Standard base64 encoding with padding (`digest('base64')`). -/
def base64Encode (bs : List Nat) : String := String.mk (base64EncodeChars bs)

/-- Base64 alphabet value of a character, `none` for anything else. Node's
decoder also accepts the RFC 4648 section 5 URL-safe alphabet, so `'-'`
(0x2D) decodes as 62 like `'+'` and `'_'` (0x5F) decodes as 63 like `'/'`. -/
def unbase64 (c : Char) : Option Nat :=
  let n := c.toNat
  if 65 ≤ n ∧ n ≤ 90 then some (n - 65)
  else if 97 ≤ n ∧ n ≤ 122 then some (n - 71)
  else if 48 ≤ n ∧ n ≤ 57 then some (n + 4)
  else if n = 43 ∨ n = 45 then some 62
  else if n = 47 ∨ n = 95 then some 63
  else none

/-- The 6-bit values of a character stream: characters outside the alphabet
are skipped, and decoding stops at the first `=` (Node's forgiving decoder). -/
def b64Values : List Char → List Nat
  | [] => []
  | c :: cs =>
      if c = '=' then []
      else
        match unbase64 c with
        | some v => v :: b64Values cs
        | none => b64Values cs

/-- Reassemble bytes from 6-bit values; a trailing group of 2 or 3 values
emits 1 or 2 bytes, a single trailing value emits nothing. -/
def b64Group : List Nat → List Nat
  | v0 :: v1 :: v2 :: v3 :: rest =>
      (((v0 &&& 0x3F) <<< 2) ||| ((v1 &&& 0x30) >>> 4)) ::
      ((((v1 &&& 0xF) <<< 4) ||| ((v2 &&& 0x3C) >>> 2))) ::
      ((((v2 &&& 0x3) <<< 6) ||| (v3 &&& 0x3F))) ::
      b64Group rest
  | [v0, v1, v2] =>
      [(((v0 &&& 0x3F) <<< 2) ||| ((v1 &&& 0x30) >>> 4)),
       (((v1 &&& 0xF) <<< 4) ||| ((v2 &&& 0x3C) >>> 2))]
  | [v0, v1] =>
      [(((v0 &&& 0x3F) <<< 2) ||| ((v1 &&& 0x30) >>> 4))]
  | _ => []

/-- Node `Buffer.from(s, 'base64')`. -/
def nodeB64Decode (s : String) : List Nat := b64Group (b64Values s.data)

/-- Strict comparison of character lists by code unit, as JavaScript's default
string comparison orders strings (the parameter names here are ASCII, where
code-unit order and code-point order agree). -/
def jsLtChars : List Char → List Char → Bool
  | [], [] => false
  | [], _ :: _ => true
  | _ :: _, [] => false
  | a :: as, b :: bs =>
      if a.toNat < b.toNat then true
      else if b.toNat < a.toNat then false
      else jsLtChars as bs

/-- `a ≤ b` on strings as JavaScript's default `Array.prototype.sort`
comparator orders them. -/
def jsLe (a b : String) : Bool := !(jsLtChars b.data a.data)

/-- `Object.keys(params).sort()`: the keys sorted ascending by code-unit
order. A JS object's keys are pairwise distinct, so every correct sort
produces this same list; insertion sort keeps the recursion structural. -/
def jsSortStrings (l : List String) : List String :=
  l.insertionSort (fun a b => jsLe a b = true)

/-- JavaScript property lookup `params[key]` on an object represented as an
association list (a JS object has unique keys; a miss would be `undefined`,
which string concatenation would render as "undefined"). -/
def lookupParam (ps : List (String × String)) (k : String) : String :=
  match ps with
  | [] => "undefined"
  | p :: rest => if p.1 = k then p.2 else lookupParam rest k

/-- The signature string of `validateSignature` (line 33): the URL followed by
each parameter's key and value, keys sorted ascending. -/
def canonicalString (url : String) (params : List (String × String)) : String :=
  url ++ (jsSortStrings (params.map Prod.fst)).foldl
      (fun acc key => acc ++ key ++ lookupParam params key) ""

/-- The expected signature of `validateSignature` (lines 38-41): HMAC-SHA1 of
the canonical string keyed by the auth token, base64-encoded with padding.
This is also the signing operation of the scheme. -/
def sign (authToken url : String) (params : List (String × String)) : String :=
  base64Encode (hmacSha1 (utf8Bytes authToken) (utf8Bytes (canonicalString url params)))

/-- `crypto.timingSafeEqual(a, b)`: throws `ERR_CRYPTO_TIMING_SAFE_EQUAL_LENGTH`
when the buffers differ in length, otherwise compares full buffers in constant
time and returns the equality verdict. -/
def timingSafeEqual (a b : List Nat) : Except String Bool :=
  if a.length = b.length then Except.ok (decide (a = b))
  else Except.error "ERR_CRYPTO_TIMING_SAFE_EQUAL_LENGTH"

/-- The body of `validateSignature` before its catch: decode the supplied
signature and the freshly computed expected signature from base64 and compare
them with `timingSafeEqual`, which may throw. -/
def validateSignatureE (signature url : String) (params : List (String × String))
    (authToken : String) : Except String Bool :=
  timingSafeEqual (nodeB64Decode signature) (nodeB64Decode (sign authToken url params))

/-- `validateSignature` (lines 30-52): the try/catch turns any thrown error
into `false`. -/
def validateSignature (signature url : String) (params : List (String × String))
    (authToken : String) : Bool :=
  match validateSignatureE signature url params authToken with
  | Except.ok b => b
  | Except.error _ => false

/-- Outcome of the Express middleware: which 403 response it sends, or
`next()`. -/
inductive MwOutcome
  | forbiddenMissing
  | forbiddenInvalid
  | next
deriving DecidableEq

/-- The middleware (lines 57-100): a falsy signature header (absent or the
empty string) is rejected as missing; otherwise each auth token is tried with
`Array.prototype.some` and the request proceeds iff one matches. -/
def middlewareVerify (signatureHeader : Option String) (url : String)
    (params : List (String × String)) (authTokens : List String) : MwOutcome :=
  match signatureHeader with
  | none => MwOutcome.forbiddenMissing
  | some s =>
      if s = "" then MwOutcome.forbiddenMissing
      else if authTokens.any (fun t => validateSignature s url params t) then
        MwOutcome.next
      else MwOutcome.forbiddenInvalid

/-- How many auth tokens `Array.prototype.some` actually calls
`validateSignature` on: it short-circuits at the first match. Each call
computes exactly one keyed HMAC digest (lines 38-41 run before the
comparison), so this is also the number of keyed digests computed. -/
def tokensTried (s url : String) (params : List (String × String)) :
    List String → Nat
  | [] => 0
  | t :: ts =>
      if validateSignature s url params t then 1
      else 1 + tokensTried s url params ts

/-- Keyed digests computed by one middleware invocation. -/
def digestsComputed (signatureHeader : Option String) (url : String)
    (params : List (String × String)) (authTokens : List String) : Nat :=
  match signatureHeader with
  | none => 0
  | some s => if s = "" then 0 else tokensTried s url params authTokens

/-- Flip bit `b` of the code unit at position `i` of a string (the signature
strings at issue are ASCII, where code units and bytes coincide). -/
def flipBitInString (s : String) (i b : Nat) : String :=
  String.mk (s.data.set i (Char.ofNat ((s.data.getD i ' ').toNat ^^^ (1 <<< b))))

/-- `validateSignature` with its internal try/catch made explicit in the
exception monad: the catch maps any thrown error to `false`. -/
def validateSignatureCaught (signature url : String)
    (params : List (String × String)) (authToken : String) : Except String Bool :=
  match validateSignatureE signature url params authToken with
  | Except.ok b => Except.ok b
  | Except.error _ => Except.ok false

/-- `Array.prototype.some` over the auth tokens, in the exception monad. -/
def anyTokenValidE (s url : String) (params : List (String × String)) :
    List String → Except String Bool
  | [] => Except.ok false
  | t :: ts => do
      let b ← validateSignatureCaught s url params t
      if b then pure true else anyTokenValidE s url params ts

/-- The middleware in the exception monad, exceptions left transparent: the
only throwing operation is `timingSafeEqual`, already caught inside
`validateSignature`. -/
def middlewareVerifyE (signatureHeader : Option String) (url : String)
    (params : List (String × String)) (authTokens : List String) :
    Except String MwOutcome :=
  match signatureHeader with
  | none => Except.ok MwOutcome.forbiddenMissing
  | some s =>
      if s = "" then Except.ok MwOutcome.forbiddenMissing
      else do
        let isValid ← anyTokenValidE s url params authTokens
        if isValid then pure MwOutcome.next else pure MwOutcome.forbiddenInvalid

/-! Helper lemmas. -/

theorem char_eq_of_toNat_eq {a b : Char} (h : a.toNat = b.toNat) : a = b :=
  Char.eq_of_val_eq (UInt32.ext h)

theorem jsLtChars_asymm : ∀ x y : List Char,
    jsLtChars x y = true → jsLtChars y x = false := by
  intro x
  induction x with
  | nil =>
      intro y h
      cases y with
      | nil => simp [jsLtChars] at h
      | cons b bs => simp [jsLtChars]
  | cons a as ih =>
      intro y h
      cases y with
      | nil => simp [jsLtChars] at h
      | cons b bs =>
          simp only [jsLtChars] at h ⊢
          by_cases h1 : a.toNat < b.toNat
          · have h2 : ¬ b.toNat < a.toNat := by omega
            simp [h1, h2]
          · by_cases h2 : b.toNat < a.toNat
            · simp [h1, h2] at h
            · simp [h1, h2] at h ⊢
              exact ih bs h

theorem jsLtChars_trans : ∀ x y z : List Char,
    jsLtChars x y = true → jsLtChars y z = true → jsLtChars x z = true := by
  intro x
  induction x with
  | nil =>
      intro y z hxy hyz
      cases y with
      | nil => simp [jsLtChars] at hxy
      | cons b bs =>
          cases z with
          | nil => simp [jsLtChars] at hyz
          | cons c cs => simp [jsLtChars]
  | cons a as ih =>
      intro y z hxy hyz
      cases y with
      | nil => simp [jsLtChars] at hxy
      | cons b bs =>
          cases z with
          | nil => simp [jsLtChars] at hyz
          | cons c cs =>
              by_cases hab : a.toNat < b.toNat
              · by_cases hbc : b.toNat < c.toNat
                · have hac : a.toNat < c.toNat := by omega
                  simp [jsLtChars, hac]
                · by_cases hcb : c.toNat < b.toNat
                  · simp [jsLtChars, hbc, hcb] at hyz
                  · have hac : a.toNat < c.toNat := by omega
                    simp [jsLtChars, hac]
              · by_cases hba : b.toNat < a.toNat
                · simp [jsLtChars, hab, hba] at hxy
                · simp only [jsLtChars, if_neg hab, if_neg hba] at hxy
                  by_cases hbc : b.toNat < c.toNat
                  · have hac : a.toNat < c.toNat := by omega
                    simp [jsLtChars, hac]
                  · by_cases hcb : c.toNat < b.toNat
                    · simp [jsLtChars, hbc, hcb] at hyz
                    · simp only [jsLtChars, if_neg hbc, if_neg hcb] at hyz
                      have hac : ¬ a.toNat < c.toNat := by omega
                      have hca : ¬ c.toNat < a.toNat := by omega
                      simp only [jsLtChars, if_neg hac, if_neg hca]
                      exact ih bs cs hxy hyz

theorem jsLtChars_eq_of_not_lt : ∀ x y : List Char,
    jsLtChars x y = false → jsLtChars y x = false → x = y := by
  intro x
  induction x with
  | nil =>
      intro y hxy _
      cases y with
      | nil => rfl
      | cons b bs => simp [jsLtChars] at hxy
  | cons a as ih =>
      intro y hxy hyx
      cases y with
      | nil => simp [jsLtChars] at hyx
      | cons b bs =>
          simp only [jsLtChars] at hxy hyx
          by_cases hab : a.toNat < b.toNat
          · simp [hab] at hxy
          · by_cases hba : b.toNat < a.toNat
            · simp [hab, hba] at hyx
            · simp [hab, hba] at hxy hyx
              have hchar : a = b := char_eq_of_toNat_eq (by omega)
              rw [hchar, ih bs hxy hyx]

instance jsLeIsTrans : IsTrans String (fun a b => jsLe a b = true) := by
  constructor
  intro a b c hab hbc
  simp only [jsLe, Bool.not_eq_true'] at hab hbc ⊢
  by_cases hca : jsLtChars c.data a.data = true
  · by_cases hcb : jsLtChars c.data b.data = true
    · rw [hcb] at hbc; exact absurd hbc (by simp)
    · by_cases hbc2 : jsLtChars b.data c.data = true
      · have := jsLtChars_trans _ _ _ hbc2 hca
        rw [this] at hab; exact absurd hab (by simp)
      · have hbceq : b.data = c.data :=
          jsLtChars_eq_of_not_lt _ _ (Bool.not_eq_true _ ▸ hbc2)
            (Bool.not_eq_true _ ▸ hcb)
        rw [← hbceq] at hca
        rw [hca] at hab; exact absurd hab (by simp)
  · exact Bool.not_eq_true _ ▸ hca

instance jsLeIsTotal : IsTotal String (fun a b => jsLe a b = true) := by
  constructor
  intro a b
  simp only [jsLe, Bool.not_eq_true']
  by_cases h : jsLtChars b.data a.data = true
  · right; exact jsLtChars_asymm _ _ h
  · left; exact Bool.not_eq_true _ ▸ h

instance jsLeIsAntisymm : IsAntisymm String (fun a b => jsLe a b = true) := by
  constructor
  intro a b hab hba
  simp only [jsLe, Bool.not_eq_true'] at hab hba
  exact String.ext (jsLtChars_eq_of_not_lt _ _ hba hab)

theorem lookupParam_perm (k : String) {ps1 ps2 : List (String × String)}
    (h : ps1.Perm ps2) :
    (ps1.map Prod.fst).Nodup → lookupParam ps1 k = lookupParam ps2 k := by
  induction h with
  | nil => intro _; rfl
  | cons p h ih =>
      intro hnd
      simp only [List.map_cons, List.nodup_cons] at hnd
      simp only [lookupParam]
      by_cases hp : p.1 = k
      · simp [hp]
      · simp only [if_neg hp]
        exact ih hnd.2
  | swap x y l =>
      intro hnd
      simp only [List.map_cons, List.nodup_cons, List.mem_cons] at hnd
      have hxy : y.1 ≠ x.1 := fun hc => hnd.1 (Or.inl hc)
      simp only [lookupParam]
      by_cases h1 : y.1 = k
      · have h2 : x.1 ≠ k := fun hc => hxy (h1.trans hc.symm)
        simp [h1, h2]
      · by_cases h2 : x.1 = k
        · simp [h1, h2]
        · simp [h1, h2]
  | trans h1 h2 ih1 ih2 =>
      intro hnd
      exact (ih1 hnd).trans (ih2 (((h1.map Prod.fst).nodup_iff).mp hnd))

theorem sha1Compress_length (h block : List Nat) :
    (sha1Compress h block).length = 5 := rfl

theorem foldl_sha1Compress_length (blocks : List (List Nat)) :
    ∀ h : List Nat, h.length = 5 → (blocks.foldl sha1Compress h).length = 5 := by
  induction blocks with
  | nil => intro h hh; simpa using hh
  | cons b bs ih => intro h _; exact ih _ (sha1Compress_length _ _)

theorem flatten_map_be4_length (ws : List Nat) :
    ((ws.map be4).flatten).length = 4 * ws.length := by
  induction ws with
  | nil => rfl
  | cons w ws ih =>
      simp only [List.map_cons, List.flatten_cons, List.length_append, ih,
        List.length_cons, be4]
      simp only [List.length_cons, List.length_nil]
      omega

theorem sha1_length (msg : List Nat) : (sha1 msg).length = 20 := by
  unfold sha1
  rw [flatten_map_be4_length,
    foldl_sha1Compress_length (chunks64 (sha1Pad msg))
      [0x67452301, 0xEFCDAB89, 0x98BADCFE, 0x10325476, 0xC3D2E1F0] rfl]

theorem hmacSha1_length (key msg : List Nat) : (hmacSha1 key msg).length = 20 := by
  simp only [hmacSha1]
  exact sha1_length _

theorem base64Encode_eq_empty {bs : List Nat} (h : base64Encode bs = "") :
    bs = [] := by
  have hd : base64EncodeChars bs = [] := String.ext_iff.mp h
  cases bs with
  | nil => rfl
  | cons b0 r0 =>
      cases r0 with
      | nil => simp [base64EncodeChars] at hd
      | cons b1 r1 =>
          cases r1 with
          | nil => simp [base64EncodeChars] at hd
          | cons b2 r2 => simp [base64EncodeChars] at hd

theorem sign_ne_empty (t u : String) (p : List (String × String)) :
    sign t u p ≠ "" := by
  intro hcontra
  have hnil : hmacSha1 (utf8Bytes t) (utf8Bytes (canonicalString u p)) = [] :=
    base64Encode_eq_empty hcontra
  have h20 := hmacSha1_length (utf8Bytes t) (utf8Bytes (canonicalString u p))
  rw [hnil] at h20
  simp at h20

theorem validateSignature_eq_true_iff (s u : String) (p : List (String × String))
    (t : String) :
    validateSignature s u p t = true ↔
      nodeB64Decode s = nodeB64Decode (sign t u p) := by
  unfold validateSignature validateSignatureE timingSafeEqual
  by_cases hlen : (nodeB64Decode s).length = (nodeB64Decode (sign t u p)).length
  · rw [if_pos hlen]
    simp
  · rw [if_neg hlen]
    simp only [Bool.false_eq_true, false_iff]
    intro heq
    exact hlen (congrArg List.length heq)

theorem validateSignature_self (u : String) (p : List (String × String))
    (t : String) : validateSignature (sign t u p) u p t = true :=
  (validateSignature_eq_true_iff _ _ _ _).mpr rfl

theorem anyTokenValidE_eq (s u : String) (p : List (String × String)) :
    ∀ ts : List String,
      anyTokenValidE s u p ts =
        Except.ok (ts.any (fun t => validateSignature s u p t)) := by
  intro ts
  induction ts with
  | nil => rfl
  | cons t ts ih =>
      have hc : validateSignatureCaught s u p t =
          Except.ok (validateSignature s u p t) := by
        unfold validateSignatureCaught validateSignature
        cases validateSignatureE s u p t <;> rfl
      simp only [anyTokenValidE, hc, List.any_cons, bind, Except.bind]
      by_cases hb : validateSignature s u p t
      · simp [hb, pure, Except.pure]
      · simp only [Bool.not_eq_true] at hb
        simp [hb, ih]

theorem tokensTried_of_all_false (s u : String) (p : List (String × String)) :
    ∀ ts : List String, (∀ t ∈ ts, validateSignature s u p t = false) →
      tokensTried s u p ts = ts.length := by
  intro ts
  induction ts with
  | nil => intro _; rfl
  | cons t rest ih =>
      intro hall
      have ht : validateSignature s u p t = false := hall t (List.mem_cons_self t rest)
      simp only [tokensTried, ht, Bool.false_eq_true, if_false, List.length_cons]
      rw [ih (fun x hx => hall x (List.mem_cons_of_mem t hx))]
      omega

/-! Claim theorems. -/

set_option maxRecDepth 1000000

/-- Claim C1: for every keyring and every key `k` in it, signing `(url,
params)` with `k` (HMAC-SHA1 over the canonical string, base64-encoded with
padding) and then verifying that signature against the same url, params and
keyring succeeds (the middleware calls `next()`). -/
theorem c1_sign_then_verify (url : String) (params : List (String × String))
    (keyring : List String) (k : String) (hk : k ∈ keyring) :
    middlewareVerify (some (sign k url params)) url params keyring =
      MwOutcome.next := by
  simp only [middlewareVerify]
  rw [if_neg (sign_ne_empty k url params)]
  have hany : keyring.any
      (fun t => validateSignature (sign k url params) url params t) = true :=
    List.any_eq_true.mpr ⟨k, hk, validateSignature_self url params k⟩
  rw [if_pos hany]

/-- Witness for claim C1 at a concrete keyring, url and parameter set. -/
theorem c1_witness :
    "tokA" ∈ ["tokB", "tokA"] ∧
    middlewareVerify
      (some (sign "tokA" "https://a.test/sms" [("From", "+1"), ("Body", "hi")]))
      "https://a.test/sms" [("From", "+1"), ("Body", "hi")] ["tokB", "tokA"] =
      MwOutcome.next :=
  ⟨by decide,
   c1_sign_then_verify "https://a.test/sms" [("From", "+1"), ("Body", "hi")]
     ["tokB", "tokA"] "tokA" (by decide)⟩

/-- Claim C3: a missing signature header yields the missing-signature
rejection immediately, with no keyed digest computed, for every keyring. -/
theorem c3_missing_header (url : String) (params : List (String × String))
    (keyring : List String) :
    middlewareVerify none url params keyring = MwOutcome.forbiddenMissing ∧
    digestsComputed none url params keyring = 0 :=
  ⟨rfl, rfl⟩

/-- Claim C4: the canonical string is invariant under reordering of the
parameter mapping: two association lists with identical key/value pairs (in
different orders, keys unique as in a JS object) canonicalize identically. -/
theorem c4_canonical_order_invariant (url : String)
    (ps1 ps2 : List (String × String)) (hperm : ps1.Perm ps2)
    (hnd : (ps1.map Prod.fst).Nodup) :
    canonicalString url ps1 = canonicalString url ps2 := by
  have hkeys : (ps1.map Prod.fst).Perm (ps2.map Prod.fst) := hperm.map Prod.fst
  have hsorted : jsSortStrings (ps1.map Prod.fst) =
      jsSortStrings (ps2.map Prod.fst) := by
    have hs1 : List.Sorted (fun a b => jsLe a b = true)
        (jsSortStrings (ps1.map Prod.fst)) := List.sorted_insertionSort _ _
    have hs2 : List.Sorted (fun a b => jsLe a b = true)
        (jsSortStrings (ps2.map Prod.fst)) := List.sorted_insertionSort _ _
    have hp : (jsSortStrings (ps1.map Prod.fst)).Perm
        (jsSortStrings (ps2.map Prod.fst)) :=
      (List.perm_insertionSort _ _).trans
        (hkeys.trans (List.perm_insertionSort _ _).symm)
    exact List.eq_of_perm_of_sorted hp hs1 hs2
  unfold canonicalString
  rw [hsorted]
  congr 1
  apply List.foldl_ext
  intro acc key _
  rw [lookupParam_perm key hperm hnd]

/-- Witness for claim C4: the two orderings of the example parameter set. -/
theorem c4_witness :
    ([("From", "+1"), ("Body", "hi")] : List (String × String)).Perm
      [("Body", "hi"), ("From", "+1")] ∧
    (([("From", "+1"), ("Body", "hi")] : List (String × String)).map
      Prod.fst).Nodup ∧
    canonicalString "https://a.test/sms" [("From", "+1"), ("Body", "hi")] =
      canonicalString "https://a.test/sms" [("Body", "hi"), ("From", "+1")] :=
  ⟨by decide, by decide,
   c4_canonical_order_invariant "https://a.test/sms" _ _ (by decide) (by decide)⟩

/-- Claim C7: the verification entry point is total: run with exceptions left
transparent, it always returns an ordinary outcome value (`Except.ok`), never
an uncaught error, on every input including malformed ones. -/
theorem c7_verification_total (sig : Option String) (url : String)
    (params : List (String × String)) (keyring : List String) :
    middlewareVerifyE sig url params keyring =
      Except.ok (middlewareVerify sig url params keyring) := by
  cases sig with
  | none => rfl
  | some s =>
      simp only [middlewareVerifyE, middlewareVerify]
      by_cases hs : s = ""
      · rw [if_pos hs, if_pos hs]
      · rw [if_neg hs, if_neg hs, anyTokenValidE_eq]
        by_cases hb : keyring.any (fun t => validateSignature s url params t) = true
        · simp [hb, bind, Except.bind, pure, Except.pure]
        · simp only [Bool.not_eq_true] at hb
          simp [hb, bind, Except.bind, pure, Except.pure]

/-- Claim C8: the canonicalizer on the worked example: parameter names sorted
ascending, each name immediately followed by its value, no separators. -/
theorem c8_canonical_example :
    canonicalString "https://a.test/sms" [("From", "+1"), ("Body", "hi")] =
      "https://a.test/smsBodyhiFrom+1" ∧
    utf8Bytes (canonicalString "https://a.test/sms"
      [("From", "+1"), ("Body", "hi")]) =
      utf8Bytes "https://a.test/smsBodyhiFrom+1" := by
  constructor
  · decide
  · decide

/-- Claim C9: with an empty parameter set the canonical string is the URL
unchanged, for every URL. -/
theorem c9_empty_params (url : String) : canonicalString url [] = url := by
  simp only [canonicalString, jsSortStrings, List.map_nil, List.insertionSort,
    List.foldl_nil]
  exact String.append_empty url

/-- Claim C10: a present but empty signature header is treated exactly like a
missing one (the JS falsy check `!signature`): the missing-signature
rejection, not the invalid-signature one. -/
theorem c10_empty_header (url : String) (params : List (String × String))
    (keyring : List String) :
    middlewareVerify (some "") url params keyring = MwOutcome.forbiddenMissing ∧
    middlewareVerify (some "") url params keyring =
      middlewareVerify none url params keyring := by
  constructor
  · simp [middlewareVerify]
  · simp [middlewareVerify]

/-- Claim C2 counterexample: the signature header `sign(...) ++ "!"` is not
valid base64 (it contains `'!'`, a character outside the base64 alphabet), yet
the middleware does not report any malformed-signature failure: Node's
forgiving decoder ignores the `'!'`, a keyed digest is computed against the
key (one token tried), and verification even succeeds. -/
theorem c2_counterexample :
    '!' ∈ (sign "tokA" "https://a.test/sms" [("From", "+1"), ("Body", "hi")]
      ++ "!").data ∧
    middlewareVerify
      (some (sign "tokA" "https://a.test/sms" [("From", "+1"), ("Body", "hi")]
        ++ "!"))
      "https://a.test/sms" [("From", "+1"), ("Body", "hi")] ["tokA"] =
      MwOutcome.next ∧
    digestsComputed
      (some (sign "tokA" "https://a.test/sms" [("From", "+1"), ("Body", "hi")]
        ++ "!"))
      "https://a.test/sms" [("From", "+1"), ("Body", "hi")] ["tokA"] = 1 := by
  refine ⟨by decide, by decide, by decide⟩

/-- Claim C2 amended: a present, non-empty signature that is not valid base64
is decoded leniently, never rejected as a distinct malformed-signature
failure; a keyed digest IS computed against every key of the keyring (one per
key tried), and when no key's digest matches the leniently decoded bytes the
middleware returns the uniform invalid-signature rejection. -/
theorem c2_lenient_decode_rejection (url : String)
    (params : List (String × String)) (keyring : List String) (s : String)
    (hs : s ≠ "")
    (hall : ∀ t ∈ keyring, validateSignature s url params t = false) :
    middlewareVerify (some s) url params keyring = MwOutcome.forbiddenInvalid ∧
    digestsComputed (some s) url params keyring = keyring.length := by
  constructor
  · simp only [middlewareVerify]
    rw [if_neg hs]
    have hnott : ¬ (keyring.any (fun t => validateSignature s url params t) = true) := by
      intro hany
      obtain ⟨t, ht, hv⟩ := List.any_eq_true.mp hany
      rw [hall t ht] at hv
      exact Bool.false_ne_true hv
    rw [if_neg hnott]
  · simp only [digestsComputed]
    rw [if_neg hs]
    exact tokensTried_of_all_false s url params keyring hall

/-- Witness for the amended claim C2 at the concrete garbage signature
`"!!!"`, which decodes to zero bytes. -/
theorem c2_witness :
    ("!!!" : String) ≠ "" ∧
    (∀ t ∈ (["tokA"] : List String),
      validateSignature "!!!" "https://a.test/sms"
        [("From", "+1"), ("Body", "hi")] t = false) ∧
    middlewareVerify (some "!!!") "https://a.test/sms"
      [("From", "+1"), ("Body", "hi")] ["tokA"] = MwOutcome.forbiddenInvalid ∧
    digestsComputed (some "!!!") "https://a.test/sms"
      [("From", "+1"), ("Body", "hi")] ["tokA"] = 1 := by
  have hall : ∀ t ∈ (["tokA"] : List String),
      validateSignature "!!!" "https://a.test/sms"
        [("From", "+1"), ("Body", "hi")] t = false := by decide
  have h := c2_lenient_decode_rejection "https://a.test/sms"
    [("From", "+1"), ("Body", "hi")] ["tokA"] "!!!" (by decide) hall
  exact ⟨by decide, hall, h.1, h.2⟩

/-- Claim C5 counterexample: flipping bit 0 of the final character of a valid
signature (its `'='` padding byte, `0x3D`, becomes `'<'`, `0x3C`) yields a
different string that still verifies successfully, because Node's forgiving
decoder produces the same bytes; so not every single-bit flip of a valid
signature makes verification fail. -/
theorem c5_counterexample :
    flipBitInString
      (sign "tokA" "https://a.test/sms" [("From", "+1"), ("Body", "hi")]) 27 0 ≠
      sign "tokA" "https://a.test/sms" [("From", "+1"), ("Body", "hi")] ∧
    middlewareVerify
      (some (sign "tokA" "https://a.test/sms" [("From", "+1"), ("Body", "hi")]))
      "https://a.test/sms" [("From", "+1"), ("Body", "hi")] ["tokA"] =
      MwOutcome.next ∧
    middlewareVerify
      (some (flipBitInString
        (sign "tokA" "https://a.test/sms" [("From", "+1"), ("Body", "hi")]) 27 0))
      "https://a.test/sms" [("From", "+1"), ("Body", "hi")] ["tokA"] =
      MwOutcome.next := by
  refine ⟨by decide, by decide, by decide⟩

/-- Claim C5 amended: an alteration of a valid signature makes verification
against the single-key keyring fail exactly when it changes the leniently
decoded byte sequence: a signature string whose decode differs from the valid
one's is rejected with the uniform invalid-signature rejection, while one
whose decode is unchanged (alterations confined to skipped characters or
discarded padding bits, as in the counterexample) still verifies. -/
theorem c5_changed_decode_fails (url : String) (params : List (String × String))
    (k s s2 : String)
    (hvalid : validateSignature s url params k = true)
    (hs2 : s2 ≠ "") :
    (nodeB64Decode s2 ≠ nodeB64Decode s →
      middlewareVerify (some s2) url params [k] = MwOutcome.forbiddenInvalid) ∧
    (nodeB64Decode s2 = nodeB64Decode s →
      middlewareVerify (some s2) url params [k] = MwOutcome.next) := by
  have hs : nodeB64Decode s = nodeB64Decode (sign k url params) :=
    (validateSignature_eq_true_iff s url params k).mp hvalid
  constructor
  · intro hchanged
    have hv2 : validateSignature s2 url params k = false := by
      have hne : ¬ (validateSignature s2 url params k = true) := by
        rw [validateSignature_eq_true_iff, ← hs]
        exact hchanged
      simpa using hne
    simp only [middlewareVerify]
    rw [if_neg hs2]
    have hnott : ¬ (([k].any (fun t => validateSignature s2 url params t)) = true) := by
      simp [hv2]
    rw [if_neg hnott]
  · intro hsame
    have hv2 : validateSignature s2 url params k = true := by
      rw [validateSignature_eq_true_iff, ← hs]
      exact hsame
    simp only [middlewareVerify]
    rw [if_neg hs2]
    have hany : ([k].any (fun t => validateSignature s2 url params t)) = true := by
      simp [hv2]
    rw [if_pos hany]

/-- Witness for the amended claim C5, exercising both directions: prepending
`'A'` to the valid signature changes its decoded bytes (21 instead of 20) and
the middleware rejects it as invalid; flipping bit 0 of its final `'='`
(position 27) leaves the decoded bytes unchanged and the middleware still
accepts. -/
theorem c5_witness :
    validateSignature
      (sign "tokA" "https://a.test/sms" [("From", "+1"), ("Body", "hi")])
      "https://a.test/sms" [("From", "+1"), ("Body", "hi")] "tokA" = true ∧
    ("A" ++ sign "tokA" "https://a.test/sms" [("From", "+1"), ("Body", "hi")]) ≠ "" ∧
    nodeB64Decode
      ("A" ++ sign "tokA" "https://a.test/sms" [("From", "+1"), ("Body", "hi")]) ≠
      nodeB64Decode
        (sign "tokA" "https://a.test/sms" [("From", "+1"), ("Body", "hi")]) ∧
    middlewareVerify
      (some ("A" ++ sign "tokA" "https://a.test/sms" [("From", "+1"), ("Body", "hi")]))
      "https://a.test/sms" [("From", "+1"), ("Body", "hi")] ["tokA"] =
      MwOutcome.forbiddenInvalid ∧
    nodeB64Decode (flipBitInString
      (sign "tokA" "https://a.test/sms" [("From", "+1"), ("Body", "hi")]) 27 0) =
      nodeB64Decode
        (sign "tokA" "https://a.test/sms" [("From", "+1"), ("Body", "hi")]) ∧
    middlewareVerify
      (some (flipBitInString
        (sign "tokA" "https://a.test/sms" [("From", "+1"), ("Body", "hi")]) 27 0))
      "https://a.test/sms" [("From", "+1"), ("Body", "hi")] ["tokA"] =
      MwOutcome.next := by
  have h1 : validateSignature
      (sign "tokA" "https://a.test/sms" [("From", "+1"), ("Body", "hi")])
      "https://a.test/sms" [("From", "+1"), ("Body", "hi")] "tokA" = true := by
    decide
  have h2 : ("A" ++ sign "tokA" "https://a.test/sms"
      [("From", "+1"), ("Body", "hi")]) ≠ "" := by decide
  have h3 : nodeB64Decode
      ("A" ++ sign "tokA" "https://a.test/sms" [("From", "+1"), ("Body", "hi")]) ≠
      nodeB64Decode
        (sign "tokA" "https://a.test/sms" [("From", "+1"), ("Body", "hi")]) := by
    decide
  have h4 : (flipBitInString
      (sign "tokA" "https://a.test/sms" [("From", "+1"), ("Body", "hi")]) 27 0) ≠ "" := by
    decide
  have h5 : nodeB64Decode (flipBitInString
      (sign "tokA" "https://a.test/sms" [("From", "+1"), ("Body", "hi")]) 27 0) =
      nodeB64Decode
        (sign "tokA" "https://a.test/sms" [("From", "+1"), ("Body", "hi")]) := by
    decide
  exact ⟨h1, h2, h3,
    (c5_changed_decode_fails "https://a.test/sms" [("From", "+1"), ("Body", "hi")]
      "tokA" _ _ h1 h2).1 h3,
    h5,
    (c5_changed_decode_fails "https://a.test/sms" [("From", "+1"), ("Body", "hi")]
      "tokA" _ _ h1 h4).2 h5⟩

/-- Claim C6 counterexample: the claim quantifies over every pair of keys, but
with `old = new = "tok"` the request signed with `old` still verifies after
the keyring is replaced by `[new]`, so "returns Failure" fails as stated. -/
theorem c6_counterexample :
    middlewareVerify
      (some (sign "tok" "https://a.test/sms" [("From", "+1"), ("Body", "hi")]))
      "https://a.test/sms" [("From", "+1"), ("Body", "hi")] ["tok", "tok"] =
      MwOutcome.next ∧
    middlewareVerify
      (some (sign "tok" "https://a.test/sms" [("From", "+1"), ("Body", "hi")]))
      "https://a.test/sms" [("From", "+1"), ("Body", "hi")] ["tok"] =
      MwOutcome.next := by
  refine ⟨by decide, by decide⟩

/-- Claim C6 amended: for a request signed with `oldK`, verification with
keyring `[oldK, newK]` succeeds, and matching tries the keys in sequence
order, short-circuiting at the first match (only one token is tried);
provided the `oldK`-signed signature does not also validate under `newK` (in
particular the keys and their digests differ), verification with `[newK]`
alone is rejected as invalid. -/
theorem c6_key_rollover (url : String) (params : List (String × String))
    (oldK newK : String)
    (hnew : validateSignature (sign oldK url params) url params newK = false) :
    middlewareVerify (some (sign oldK url params)) url params [oldK, newK] =
      MwOutcome.next ∧
    middlewareVerify (some (sign oldK url params)) url params [newK] =
      MwOutcome.forbiddenInvalid ∧
    tokensTried (sign oldK url params) url params [oldK, newK] = 1 := by
  refine ⟨?_, ?_, ?_⟩
  · simp only [middlewareVerify]
    rw [if_neg (sign_ne_empty oldK url params)]
    have hany : ([oldK, newK].any
        (fun t => validateSignature (sign oldK url params) url params t)) = true :=
      List.any_eq_true.mpr
        ⟨oldK, by simp, validateSignature_self url params oldK⟩
    rw [if_pos hany]
  · simp only [middlewareVerify]
    rw [if_neg (sign_ne_empty oldK url params)]
    have hnott : ¬ (([newK].any
        (fun t => validateSignature (sign oldK url params) url params t)) = true) := by
      simp [hnew]
    rw [if_neg hnott]
  · simp [tokensTried, validateSignature_self url params oldK]

/-- Witness for the amended claim C6 with the concrete keys `"tokA"` (old)
and `"tokB"` (new). -/
theorem c6_witness :
    validateSignature
      (sign "tokA" "https://a.test/sms" [("From", "+1"), ("Body", "hi")])
      "https://a.test/sms" [("From", "+1"), ("Body", "hi")] "tokB" = false ∧
    middlewareVerify
      (some (sign "tokA" "https://a.test/sms" [("From", "+1"), ("Body", "hi")]))
      "https://a.test/sms" [("From", "+1"), ("Body", "hi")] ["tokA", "tokB"] =
      MwOutcome.next ∧
    middlewareVerify
      (some (sign "tokA" "https://a.test/sms" [("From", "+1"), ("Body", "hi")]))
      "https://a.test/sms" [("From", "+1"), ("Body", "hi")] ["tokB"] =
      MwOutcome.forbiddenInvalid ∧
    tokensTried
      (sign "tokA" "https://a.test/sms" [("From", "+1"), ("Body", "hi")])
      "https://a.test/sms" [("From", "+1"), ("Body", "hi")] ["tokA", "tokB"] = 1 := by
  have hnew : validateSignature
      (sign "tokA" "https://a.test/sms" [("From", "+1"), ("Body", "hi")])
      "https://a.test/sms" [("From", "+1"), ("Body", "hi")] "tokB" = false := by
    decide
  have h := c6_key_rollover "https://a.test/sms" [("From", "+1"), ("Body", "hi")]
    "tokA" "tokB" hnew
  exact ⟨hnew, h.1, h.2.1, h.2.2⟩
